import Mathlib

/-
Verification development for the thunderstorm-automation repository.

Each Python source construct that the claims depend on is shallow-embedded as
an executable Lean definition, and the claims are settled as theorems about
those definitions.  Python dictionaries are modelled as insertion-ordered
association lists (matching CPython dict semantics); filesystem state and the
external Fiji process are modelled as explicit parameters.
-/

namespace Thunderstorm

/- ------------------------------------------------------------------ -/
/- Configuration store model (src/fiji_automator/config.py)           -/
/- ------------------------------------------------------------------ -/

/- Python values stored in the configuration dictionary: strings, numbers
(floats and ints are modelled together as rationals), booleans, lists and
nested dicts.  A dict is an insertion-ordered association list (Fields). -/
mutual

inductive Value where
  | vstr (s : String)
  | vnum (q : Rat)
  | vbool (b : Bool)
  | varr (l : VList)
  | vdict (d : Fields)

inductive VList where
  | nil
  | cons (v : Value) (t : VList)

inductive Fields where
  | nil
  | cons (k : String) (v : Value) (t : Fields)

end

/-- Test whether a value is a Python dict (`isinstance(value, dict)`). -/
def Value.isDict : Value → Bool
  | .vdict _ => true
  | _ => false

/-- Dictionary key lookup, `d[k]` / `k in d`.  Returns the value bound to the
first occurrence of the key. -/
def lookupF : Fields → String → Option Value
  | .nil, _ => none
  | .cons k v t, key => if k = key then some v else lookupF t key

/-- Dictionary assignment `d[k] = v`: overwrite in place when the key exists
(keeping insertion order), otherwise append at the end, exactly as a CPython
dict behaves. -/
def insertF : Fields → String → Value → Fields
  | .nil, key, v => .cons key v .nil
  | .cons k w t, key, v =>
      if k = key then .cons k v t else .cons k w (insertF t key v)

/-- Python `base.update(kw)`: assign every pair of `kw` into `base` in order. -/
def updateF : Fields → Fields → Fields
  | base, .nil => base
  | base, .cons k v t => updateF (insertF base k v) t

/-- Embedding of the resolution loop of `Config.get` (config.py lines 136-145):
starting from a value (the config dict at the root), repeatedly check
`isinstance(value, dict) and k in value` and descend; any miss or non-dict
yields `none` (the Python code then returns the caller-supplied default). -/
def getVal : Value → List String → Option Value
  | v, [] => some v
  | .vdict d, k :: rest =>
      match lookupF d k with
      | some v => getVal v rest
      | none => none
  | _, _ :: _ => none

/-- Embedding of `Config.set` (config.py lines 147-163).  The Python loop
walks `keys[:-1]`, creating `{}` for missing segments; when it descends into a
value that is not a dict, the next membership test or the final item
assignment raises `TypeError` without having mutated anything (a `{}` is only
ever created for a segment missing from a genuine dict, after which every
deeper segment is also missing, so a creation is never followed by a raise).
The boolean result records normal completion (`true`) versus the raise
(`false`); the returned `Fields` is the store as mutated by the call. -/
def setPath : Fields → List String → Value → Fields × Bool
  | d, [], _ => (d, false)
  | d, [k], v => (insertF d k v, true)
  | d, k :: k2 :: rest, v =>
      match lookupF d k with
      | some (.vdict sub) =>
          let r := setPath sub (k2 :: rest) v
          (insertF d k (.vdict r.1), r.2)
      | some _ => (d, false)
      | none =>
          let r := setPath Fields.nil (k2 :: rest) v
          (insertF d k (.vdict r.1), r.2)

/- Embedding of `merge_dict` inside `Config._merge_config` (config.py lines
116-123): for each key of the update, recursively merge when both sides hold
dicts (`mergeVal` names the value the branch stores back at the key),
otherwise assign the update value outright. -/
mutual

def mergeDict : Fields → Fields → Fields
  | base, .nil => base
  | base, .cons k v rest =>
      mergeDict (insertF base k (mergeVal (lookupF base k) v)) rest

def mergeVal : Option Value → Value → Value
  | some (.vdict bd), .vdict vd => .vdict (mergeDict bd vd)
  | _, v => v

end

/-- Python `key.split('.')` on the character list of the key: always returns a
nonempty list of segments, with empty segments for leading, trailing or
doubled dots, exactly like `str.split` with an explicit separator. -/
def splitOnDot : List Char → List (List Char)
  | [] => [[]]
  | c :: rest =>
      let r := splitOnDot rest
      if c = '.' then [] :: r
      else
        match r with
        | [] => [[c]]
        | h :: t => (c :: h) :: t

/-- Segments of a dotted configuration key, as strings. -/
def configKeys (key : String) : List String :=
  (splitOnDot key.toList).map (fun cs => String.mk cs)

/-- Embedding of `Config.get` including the dot-splitting and the
caller-supplied default (config.py lines 125-145). -/
def configGet (d : Fields) (key : String) (dft : Value) : Value :=
  (getVal (.vdict d) (configKeys key)).getD dft

/-- Embedding of `Config.set` including the dot-splitting (config.py lines
147-163); the boolean is `false` when the call raises `TypeError`. -/
def configSet (d : Fields) (key : String) (v : Value) : Fields × Bool :=
  setPath d (configKeys key) v

/- ------------------------------------------------------------------ -/
/- Filesystem and TIFF validation model (src/fiji_automator/utils.py) -/
/- ------------------------------------------------------------------ -/

/-- Filesystem model: a finite map from path strings to file contents given
as byte lists.  A path exists exactly when it is bound in the map. -/
def FS := List (String × List Nat)

/-- Look a path up in the filesystem. -/
def fsLookup : FS → String → Option (List Nat)
  | [], _ => none
  | (p, bs) :: t, q => if p = q then some bs else fsLookup t q

/-- Final path component (text after the last slash), as `pathlib` computes
`Path(p).name` for ordinary file paths.  Paths with a trailing slash are not
normalized by this model. -/
def baseNameChars (cs : List Char) : List Char :=
  ((cs.reverse.takeWhile (fun c => c ≠ '/')).reverse)

/-- Embedding of the `pathlib` suffix rule used by `Path(p).suffix`: the text
from the last dot of the final component, provided that dot is neither the
first nor the last character of the component; otherwise the empty suffix. -/
def extChars (name : List Char) : List Char :=
  match name.reverse.findIdx? (fun c => c = '.') with
  | none => []
  | some j =>
      let i := name.length - 1 - j
      if 0 < i ∧ i < name.length - 1 then name.drop i else []

/-- Lower-cased extension of a path, modelling
`Path(path).suffix.lower()`. -/
def pathExtLower (p : String) : List Char :=
  (extChars (baseNameChars p.toList)).map Char.toLower

/-- Embedding of `ImageUtils.validate_tiff_file` (utils.py lines 208-239):
false for a missing path or a wrong extension; otherwise read the first four
bytes and require the first two to be `II` or `MM` and bytes three and four
to be `2A 00` or `00 2A`.  Note the source tests the two halves of the magic
independently. -/
def validate_tiff_file (fs : FS) (p : String) : Bool :=
  match fsLookup fs p with
  | none => false
  | some bytes =>
      if pathExtLower p ≠ ".tif".toList ∧ pathExtLower p ≠ ".tiff".toList then false
      else
        let magic := bytes.take 4
        (decide (magic.take 2 = [0x49, 0x49] ∨ magic.take 2 = [0x4D, 0x4D])
          && decide (magic.drop 2 = [0x2A, 0x00] ∨ magic.drop 2 = [0x00, 0x2A]))

/-- Validation predicate exactly as claim C2 words it: the file exists, the
extension is `.tif`/`.tiff`, and the first four bytes are the full
little-endian magic `49 49 2A 00` or the full big-endian magic
`4D 4D 00 2A`. -/
def tiff_claim_strict (fs : FS) (p : String) : Bool :=
  match fsLookup fs p with
  | none => false
  | some bytes =>
      (pathExtLower p = ".tif".toList || pathExtLower p = ".tiff".toList)
        && decide (bytes.take 4 = [0x49, 0x49, 0x2A, 0x00]
             ∨ bytes.take 4 = [0x4D, 0x4D, 0x00, 0x2A])

/-- Validation predicate as the code actually behaves: the two halves of the
magic are tested independently, so the mixed headers `49 49 00 2A` and
`4D 4D 2A 00` are accepted as well. -/
def tiff_loose_spec (fs : FS) (p : String) : Bool :=
  match fsLookup fs p with
  | none => false
  | some bytes =>
      (pathExtLower p = ".tif".toList || pathExtLower p = ".tiff".toList)
        && (decide ((bytes.take 4).take 2 = [0x49, 0x49]
              ∨ (bytes.take 4).take 2 = [0x4D, 0x4D])
            && decide ((bytes.take 4).drop 2 = [0x2A, 0x00]
              ∨ (bytes.take 4).drop 2 = [0x00, 0x2A]))

/- ------------------------------------------------------------------ -/
/- Process invocation model (src/fiji_automator/utils.py, ProcessUtils) -/
/- ------------------------------------------------------------------ -/

/-- Outcome of the underlying `subprocess.run` call, which this system treats
as an opaque external event: the child completed with a return code and
optional captured streams (`None` when output is not captured), or the
timeout expired, or launching raised an exception whose text is `msg`. -/
inductive ProcOutcome where
  | completed (rc : Int) (out err : Option String)
  | timedOut
  | launchError (msg : String)

/-- Embedding of `ProcessUtils.run_command` (utils.py lines 335-364): on
completion return `(returncode, stdout or "", stderr or "")`; on
`TimeoutExpired` return `(-1, "", "Process timed out")`; on any other
exception return `(-1, "", str(e))`. -/
def run_command (cmd : List String) (timeoutSec : Nat) (outcome : ProcOutcome) :
    Int × String × String :=
  match cmd, timeoutSec, outcome with
  | _, _, .completed rc out err => (rc, out.getD "", err.getD "")
  | _, _, .timedOut => (-1, "", "Process timed out")
  | _, _, .launchError msg => (-1, "", msg)

/- ------------------------------------------------------------------ -/
/- Analysis result processing (src/fiji_automator/core.py)            -/
/- ------------------------------------------------------------------ -/

/-- State of the output directory when the analysis results are inspected:
the lines of `results.csv` when it exists, and whether
`reconstructed_image.tif` and `thunderstorm_macro.ijm` exist. -/
structure OutputDir where
  resultsLines : Option (List String)
  reconstructed : Bool
  scriptFile : Bool

/-- Embedding of `ThunderSTORMAutomator._verify_output_files` (core.py lines
283-336) as the list of diagnostic messages it prints; artifact absence only
produces warning messages, the function returns nothing.  The detailed image
metadata printed for an existing reconstructed image is abstracted to one
fixed message. -/
def verify_output_files (o : OutputDir) (createRec : Bool) : List String :=
  (match o.resultsLines with
   | some lines =>
       ["✓ Localization results: results.csv"]
         ++ (if lines.length > 1 then
               ["  Found " ++ toString (lines.length - 1) ++ " localizations"]
             else
               ["  Warning: No localizations found in results"])
   | none => ["⚠ Warning: Expected results.csv file not found"])
  ++ (if createRec then
        (if o.reconstructed then
           ["✓ Super-resolved image: reconstructed_image.tif", "  image info"]
         else
           ["⚠ Warning: Expected reconstructed_image.tif file not found"])
      else [])
  ++ (if o.scriptFile then ["✓ Macro file: thunderstorm_macro.ijm"] else [])
  ++ ["Macro file retained for debugging"]

/-- Embedding of `ThunderSTORMAutomator._process_analysis_results` (core.py
lines 237-281): the boolean is the overall success value and the string list
is the printed diagnostics.  Success is decided by the return code alone;
with return code 0 the output files are only inspected and reported. -/
def process_analysis_results (returncode : Int) (stdout stderr : String)
    (o : OutputDir) (createRec : Bool) : Bool × List String :=
  if returncode = 0 then
    (true,
      (if stdout ≠ "" then ["Fiji stdout:", stdout] else [])
        ++ (if stderr ≠ "" then ["Fiji stderr:", stderr] else [])
        ++ ["Analysis complete! Results saved"]
        ++ verify_output_files o createRec)
  else if returncode = -1 then
    (false, ["Error: Fiji process timed out or failed to run"])
  else
    (false,
      ["Error running ThunderSTORM analysis:",
       "Return Code: " ++ toString returncode]
        ++ (if stdout ≠ "" then ["Stdout: " ++ stdout] else [])
        ++ (if stderr ≠ "" then ["Stderr: " ++ stderr] else [])
        ++ ["Troubleshooting tips"])

/- ------------------------------------------------------------------ -/
/- Executable resolution (src/fiji_automator/core.py, constructor)    -/
/- ------------------------------------------------------------------ -/

/-- Embedding of `ThunderSTORMAutomator._find_fiji_executable` (core.py lines
58-72): walk the configured per-platform path list in order and return the
first path that exists on disk; `ex` is the `Path(path).exists()` probe. -/
def find_fiji_executable (ex : String → Bool) : List String → Option String
  | [] => none
  | p :: rest => if ex p then some p else find_fiji_executable ex rest

/-- Embedding of the executable resolution in `ThunderSTORMAutomator.__init__`
(core.py lines 29-53): take the explicit override when given, otherwise probe
the configured paths; then raise `FileNotFoundError` (modelled as `none`)
when the resolved value is falsy (`None` or the empty string) or does not
exist on disk.  Construction performs no other fallible work before this
check, and macro generation only happens later inside the analysis call. -/
def resolve_fiji_path (override : Option String) (ex : String → Bool)
    (paths : List String) : Option String :=
  let fp :=
    match override with
    | some p => some p
    | none => find_fiji_executable ex paths
  match fp with
  | none => none
  | some p => if p ≠ "" && ex p then some p else none

/-- Configured Linux install path list from the default configuration
(config.py lines 60-63), with `Path.home()` as a parameter. -/
def fiji_install_paths_linux (home : String) : List String :=
  [home ++ "/Fiji.app/ImageJ-linux64", "/opt/Fiji.app/ImageJ-linux64"]

/-- Configured macOS install path list from the default configuration
(config.py lines 55-59), with `Path.home()` as a parameter. -/
def fiji_install_paths_darwin (home : String) : List String :=
  ["/Applications/Fiji.app/Contents/MacOS/ImageJ-macosx",
   "/Applications/Fiji.app/Contents/MacOS/ImageJ-macosx64",
   home ++ "/Applications/Fiji.app/Contents/MacOS/ImageJ-macosx"]

/- ------------------------------------------------------------------ -/
/- The analysis entry point (src/fiji_automator/core.py)              -/
/- ------------------------------------------------------------------ -/

/-- Truthiness of a configuration value, as Python evaluates it in an `if`:
empty string, zero, `False`, empty list and empty dict are falsy. -/
def pyTruthy : Value → Bool
  | .vstr s => s ≠ ""
  | .vnum q => q ≠ 0
  | .vbool b => b
  | .varr l => match l with | .nil => false | .cons _ _ => true
  | .vdict d => match d with | .nil => false | .cons _ _ _ => true

/-- Value of `params.get('create_reconstructed_image', True)` used as a
condition (core.py line 201 and line 313). -/
def createRecFlag (params : Fields) : Bool :=
  match lookupF params "create_reconstructed_image" with
  | some v => pyTruthy v
  | none => true

/-- Embedding of `FileUtils.sanitize_path` (utils.py lines 134-145): replace
every backslash with a forward slash (the `Path` round-trip normalization is
not modelled). -/
def sanitize_path (p : String) : String :=
  String.mk (p.toList.map (fun c => if c = '\\' then '/' else c))

/-- Content-determining data of the generated ImageJ macro script
(`ThunderSTORMAutomator._generate_macro`, core.py lines 148-235): the
sanitized input path and output directory spliced into the fixed template,
the parameter values read from `params`, and whether the reconstruction
section is appended.  The fixed literal text of the template is abstracted
away; no claim depends on it. -/
structure ScriptSpec where
  input : String
  outDir : String
  params : Fields
  withReconstruction : Bool

/-- Embedding of `ThunderSTORMAutomator._generate_macro` at the level of
`ScriptSpec`. -/
def generate_script (input outDir : String) (params : Fields) : ScriptSpec :=
  { input := input, outDir := outDir, params := params,
    withReconstruction := createRecFlag params }

/-- Errors raised by `run_thunderstorm_analysis`: the missing-input
`FileNotFoundError` (core.py line 102) and the re-raised exception when
writing the macro file fails (core.py lines 120-126). -/
inductive RunError where
  | inputNotFound (p : String)
  | scriptWriteFailed

/-- Externally visible effects of one `run_thunderstorm_analysis` call, in
program order. -/
inductive Effect where
  | warnedInvalidTiff (p : String)
  | createdOutputDir (d : String)
  | wroteScript (s : ScriptSpec) (path : String)
  | launchedFiji (cmd : List String)

/-- Environment of one analysis call: the input filesystem, whether writing
the macro file succeeds, the outcome of the Fiji subprocess, and the output
directory contents observed afterwards. -/
structure AnalysisWorld where
  fs : FS
  writeOk : Bool
  proc : ProcOutcome
  outDir : OutputDir

/-- Embedding of `ThunderSTORMAutomator.run_thunderstorm_analysis` (core.py
lines 83-146): merge per-call overrides onto a copy of the defaults, raise
`FileNotFoundError` when the input path does not exist, warn (only) when the
input fails TIFF validation, create the output directory, generate and write
the macro script, launch Fiji headlessly, and hand the process triple to
`process_analysis_results`.  The first component is the returned value or
the raised error; the second lists the effects actually performed, in
order. -/
def run_thunderstorm_analysis (w : AnalysisWorld) (fijiPath input outputDir : String)
    (timeoutSec : Nat) (defaults kwargs : Fields) :
    Except RunError Bool × List Effect :=
  let params := updateF defaults kwargs
  if (fsLookup w.fs input).isSome = false then
    (.error (.inputNotFound input), [])
  else
    let warns :=
      if validate_tiff_file w.fs input then [] else [Effect.warnedInvalidTiff input]
    let effs1 := warns ++ [Effect.createdOutputDir outputDir]
    let script := generate_script (sanitize_path input) (sanitize_path outputDir) params
    let scriptPath := outputDir ++ "/thunderstorm_macro.ijm"
    if w.writeOk = false then
      (.error .scriptWriteFailed, effs1)
    else
      let effs2 := effs1 ++ [Effect.wroteScript script scriptPath]
      let cmd := [fijiPath, "--headless", "--console", "--run", scriptPath]
      let r := run_command cmd timeoutSec w.proc
      let success := (process_analysis_results r.1 r.2.1 r.2.2 w.outDir script.withReconstruction).1
      (.ok success, effs2 ++ [Effect.launchedFiji cmd])

/- ------------------------------------------------------------------ -/
/- Plugin discovery (src/fiji_automator/setup.py)                     -/
/- ------------------------------------------------------------------ -/

/-- Release asset as returned by the GitHub release API. -/
structure Asset where
  name : String
  browser_download_url : String

/-- Leading-segment test on character lists (`l` starts with `pat`). -/
def leadsL : List Char → List Char → Bool
  | [], _ => true
  | _ :: _, [] => false
  | a :: as_, b :: bs => a == b && leadsL as_ bs

/-- Substring test on character lists, modelling Python `pat in s`. -/
def hasSub (pat : List Char) : List Char → Bool
  | [] => pat.isEmpty
  | c :: rest => leadsL pat (c :: rest) || hasSub pat rest

/-- Trailing-segment test, modelling Python `s.endswith(pat)`. -/
def trailsL (pat s : List Char) : Bool :=
  leadsL pat.reverse s.reverse

/-- Python `asset["name"].endswith(".jar") and "thunderstorm" in
asset["name"].lower()` (setup.py line 135). -/
def jarMatch (a : Asset) : Bool :=
  trailsL ".jar".toList a.name.toList
    && hasSub "thunderstorm".toList (a.name.toList.map Char.toLower)

/-- Embedding of the asset loop of `FijiSetup.get_thunderstorm_download_url`
(setup.py lines 120-143): return the download URL and name of the first
matching asset in list order, or nothing when no asset matches (the source
then returns `(None, None)`). -/
def get_thunderstorm_download_url : List Asset → Option (String × String)
  | [] => none
  | a :: rest =>
      if trailsL ".jar".toList a.name.toList
          && hasSub "thunderstorm".toList (a.name.toList.map Char.toLower) then
        some (a.browser_download_url, a.name)
      else
        get_thunderstorm_download_url rest

/- ------------------------------------------------------------------ -/
/- Heap model for the parameter copy (core.py lines 96-98)            -/
/- ------------------------------------------------------------------ -/

/-- Heap values for the aliasing-aware model of the configuration store:
scalars are immutable, and every Python dict is a mutable heap object
referenced by address.  This refines the functional `Value` model where the
claim is about object identity and in-place mutation. -/
inductive HVal where
  | hstr (s : String)
  | hnum (q : Rat)
  | hbool (b : Bool)
  | href (a : Nat)
deriving DecidableEq

/-- Field list of one dict object. -/
abbrev HFields := List (String × HVal)

/-- Heap: dict objects indexed by address; allocation appends. -/
abbrev Heap := List HFields

/-- Read the dict object at an address (empty for a dangling address). -/
def heapGet : Heap → Nat → HFields
  | [], _ => []
  | f :: _, 0 => f
  | _ :: t, n + 1 => heapGet t n

/-- Overwrite the dict object at an address. -/
def heapSet : Heap → Nat → HFields → Heap
  | [], _, _ => []
  | _ :: t, 0, y => y :: t
  | f :: t, n + 1, y => f :: heapSet t n y

/-- Dictionary key lookup inside one heap object. -/
def hLookup : HFields → String → Option HVal
  | [], _ => none
  | (k, v) :: t, key => if k = key then some v else hLookup t key

/-- Dictionary assignment inside one heap object (overwrite in place or
append, as a CPython dict). -/
def hInsert : HFields → String → HVal → HFields
  | [], key, v => [(key, v)]
  | (k, w) :: t, key, v =>
      if k = key then (k, v) :: t else (k, w) :: hInsert t key v

/-- Python `d.update(kw)` on one heap object's field list. -/
def hUpdate : HFields → HFields → HFields
  | base, [] => base
  | base, (k, v) :: t => hUpdate (hInsert base k v) t

/-- Resolution of a dotted key through heap references, the heap-level
counterpart of `Config.get` (config.py lines 136-145). -/
def hResolve (h : Heap) : HVal → List String → Option HVal
  | v, [] => some v
  | .href a, k :: rest =>
      match hLookup (heapGet h a) k with
      | some v => hResolve h v rest
      | none => none
  | _, _ :: _ => none

/-- Dotted key of `Config.get_default_parameters` (config.py line 185). -/
def defaultsPath : List String := ["thunderstorm", "default_parameters"]

/-- Every reference stored in a heap value stays below the bound `n`. -/
def hvalBound (v : HVal) (n : Nat) : Bool :=
  match v with
  | .href a => decide (a < n)
  | _ => true

/-- Well-formed heap: every stored reference points at an allocated
object. -/
def heapWF (h : Heap) : Prop :=
  ∀ f ∈ h, ∀ kv ∈ f, hvalBound (Prod.snd kv) h.length = true

instance (h : Heap) : Decidable (heapWF h) := by
  unfold heapWF; infer_instance

/-- Embedding of the parameter preparation in
`ThunderSTORMAutomator.run_thunderstorm_analysis` (core.py lines 96-98):
`params = self.config.get_default_parameters().copy()` followed by
`params.update(kwargs)`.  The `get` returns a reference to the stored
defaults dict; `.copy()` allocates a fresh object with the same fields; the
`update` then mutates only that fresh object.  Returns the heap after the
call and the address of the `params` object; `none` models the
`AttributeError` raised by `.copy()` on a non-dict (never reached on the
shipped configuration).  When the dotted key is absent the `get` falls back
to a fresh empty dict literal. -/
def param_phase (h : Heap) (cfgAddr : Nat) (kwargs : HFields) :
    Option (Heap × Nat) :=
  match hResolve h (.href cfgAddr) defaultsPath with
  | some (.href rd) =>
      let addr := h.length
      let h1 := h ++ [heapGet h rd]
      let h2 := heapSet h1 addr (hUpdate (heapGet h1 addr) kwargs)
      some (h2, addr)
  | some _ => none
  | none =>
      some (h ++ [hUpdate [] kwargs], h.length)

/-- Analysis world with no files at all: the input path does not exist. -/
def worldNoInput : AnalysisWorld :=
  { fs := [], writeOk := true,
    proc := .completed 0 (some "") (some ""),
    outDir := { resultsLines := none, reconstructed := false, scriptFile := false } }

/-- Analysis world holding a valid input TIFF, with a successful macro write
and a cleanly exiting process. -/
def worldGoodInput : AnalysisWorld :=
  { fs := [("in.tif", [0x49, 0x49, 0x2A, 0x00])], writeOk := true,
    proc := .completed 0 none none,
    outDir := { resultsLines := some ["header", "row"], reconstructed := true,
                scriptFile := true } }

/-- Concrete three-object heap: address 0 is the config root
`{"thunderstorm": ref 1}`, address 1 is `{"default_parameters": ref 2}`, and
address 2 holds the stored default parameters. -/
def witHeap : Heap :=
  [[("thunderstorm", HVal.href 1)],
   [("default_parameters", HVal.href 2)],
   [("pixel_size", HVal.hnum 100), ("gain", HVal.hnum 100),
    ("sigma", HVal.hnum 1.6)]]

/-- Concrete per-call overrides for the witness. -/
def witKwargs : HFields := [("gain", HVal.hnum 300)]

/-- Heap and params address produced by the parameter phase on the witness
heap. -/
def witPhase : Heap × Nat := (param_phase witHeap 0 witKwargs).getD ([], 0)

/-- Induction along the spine of a field list, leaving the stored values
untouched (the mutual recursor specialised to `Fields`). -/
def fieldsInd {motive : Fields → Prop} (hnil : motive .nil)
    (hcons : ∀ k v t, motive t → motive (.cons k v t)) : ∀ f, motive f
  | .nil => hnil
  | .cons k v t => hcons k v t (fieldsInd hnil hcons t)

/- ------------------------------------------------------------------ -/
/- Concrete instances used by witnesses and counterexamples           -/
/- ------------------------------------------------------------------ -/

/-- Store holding one nested mapping: `{"a": {"b": 1}}`. -/
def cexStore : Fields := .cons "a" (.vdict (.cons "b" (.vnum 1) .nil)) .nil

/-- Override replacing the nested mapping by a scalar: `{"a": 2}`. -/
def cexOverride : Fields := .cons "a" (.vnum 2) .nil

/-- Store binding a key to a scalar: `{"a": 1}`, the state after
`set('a', 1)`. -/
def scalarStore : Fields := .cons "a" (.vnum 1) .nil

/- ------------------------------------------------------------------ -/
/- Theorems                                                           -/
/- ------------------------------------------------------------------ -/

theorem lookupF_insertF (d : Fields) (k key : String) (v : Value) :
    lookupF (insertF d k v) key = if k = key then some v else lookupF d key := by
  induction d using fieldsInd with
  | hnil => simp [insertF, lookupF]
  | hcons k0 w t ih =>
      by_cases h0 : k0 = k
      · subst h0
        by_cases hk : k0 = key <;> simp [insertF, lookupF, hk]
      · by_cases hk : k0 = key
        · subst hk
          simp [insertF, lookupF, h0, Ne.symm h0]
        · simp [insertF, lookupF, h0, hk, ih]

theorem lookupF_isSome_insertF (d : Fields) (k key : String) (v : Value)
    (h : (lookupF d key).isSome = true) :
    (lookupF (insertF d k v) key).isSome = true := by
  rw [lookupF_insertF]
  split <;> simp_all

theorem insertF_lookup_self (d : Fields) (k : String) (v : Value)
    (h : lookupF d k = some v) : insertF d k v = d := by
  induction d using fieldsInd with
  | hnil => simp [lookupF] at h
  | hcons k0 w t ih =>
      by_cases h0 : k0 = k
      · subst h0
        simp [lookupF] at h
        simp [insertF, h]
      · simp [lookupF, h0] at h
        simp [insertF, h0, ih h]

theorem getVal_single (d : Fields) (k : String) :
    getVal (.vdict d) [k] = lookupF d k := by
  cases h : lookupF d k <;> simp [getVal, h]

theorem getVal_nondict (v : Value) (ks : List String) (hv : v.isDict = false)
    (h : ks ≠ []) : getVal v ks = none := by
  cases v <;> cases ks <;> simp_all [getVal, Value.isDict]

theorem lookupF_mergeDict_isSome :
    ∀ (update base : Fields) (k : String),
      (lookupF base k).isSome = true →
      (lookupF (mergeDict base update) k).isSome = true
  | .nil, _, _, h => h
  | .cons k0 v t, base, k, h => by
      rw [mergeDict]
      exact lookupF_mergeDict_isSome t _ k (lookupF_isSome_insertF _ _ _ _ h)

theorem getVal_cons_some (d : Fields) (k : String) (rest : List String) (u : Value)
    (h : lookupF d k = some u) : getVal (.vdict d) (k :: rest) = getVal u rest := by
  simp [getVal, h]

theorem setPath_get_roundtrip :
    ∀ (ks : List String) (d : Fields) (v : Value),
      (setPath d ks v).2 = true →
      getVal (.vdict (setPath d ks v).1) ks = some v
  | [], d, v, h => by simp [setPath] at h
  | [k], d, v, _ => by
      simp [setPath, getVal_single, lookupF_insertF]
  | k :: k2 :: rest, d, v, h => by
      cases hlk : lookupF d k with
      | none =>
          have h2 : (setPath Fields.nil (k2 :: rest) v).2 = true := by
            simpa [setPath, hlk] using h
          have ih := setPath_get_roundtrip (k2 :: rest) Fields.nil v h2
          have hstep : setPath d (k :: k2 :: rest) v =
              (insertF d k (.vdict (setPath Fields.nil (k2 :: rest) v).1),
               (setPath Fields.nil (k2 :: rest) v).2) := by
            simp [setPath, hlk]
          have hl2 : lookupF (insertF d k (.vdict (setPath Fields.nil (k2 :: rest) v).1)) k
              = some (.vdict (setPath Fields.nil (k2 :: rest) v).1) := by
            simp [lookupF_insertF]
          rw [hstep, getVal_cons_some _ _ _ _ hl2]
          exact ih
      | some u =>
          cases u with
          | vdict sub =>
              have h2 : (setPath sub (k2 :: rest) v).2 = true := by
                simpa [setPath, hlk] using h
              have ih := setPath_get_roundtrip (k2 :: rest) sub v h2
              have hstep : setPath d (k :: k2 :: rest) v =
                  (insertF d k (.vdict (setPath sub (k2 :: rest) v).1),
                   (setPath sub (k2 :: rest) v).2) := by
                simp [setPath, hlk]
              have hl2 : lookupF (insertF d k (.vdict (setPath sub (k2 :: rest) v).1)) k
                  = some (.vdict (setPath sub (k2 :: rest) v).1) := by
                simp [lookupF_insertF]
              rw [hstep, getVal_cons_some _ _ _ _ hl2]
              exact ih
          | vstr s => simp [setPath, hlk] at h
          | vnum q => simp [setPath, hlk] at h
          | vbool b => simp [setPath, hlk] at h
          | varr l => simp [setPath, hlk] at h

theorem setPath_scalar_ancestor :
    ∀ (p q : List String) (d : Fields) (v w : Value),
      p ≠ [] → q ≠ [] → getVal (.vdict d) p = some w → w.isDict = false →
      setPath d (p ++ q) v = (d, false) ∧ getVal (.vdict d) (p ++ q) = none
  | [], _, _, _, _, hp, _, _, _ => absurd rfl hp
  | [k], q, d, v, w, _, hq, hres, hw => by
      rw [getVal_single] at hres
      obtain ⟨q1, q2, rfl⟩ : ∃ q1 q2, q = q1 :: q2 := by
        cases q with
        | nil => exact absurd rfl hq
        | cons a b => exact ⟨a, b, rfl⟩
      have hnd : getVal w (q1 :: q2) = none := getVal_nondict w _ hw (by simp)
      constructor
      · cases w <;> simp_all [setPath, Value.isDict]
      · simp [getVal, hres, hnd]
  | k :: k1 :: p2, q, d, v, w, _, hq, hres, hw => by
      cases hlk : lookupF d k with
      | none => simp [getVal, hlk] at hres
      | some u =>
          cases u with
          | vdict sub =>
              have hres2 : getVal (.vdict sub) (k1 :: p2) = some w := by
                simpa [getVal, hlk] using hres
              have ih := setPath_scalar_ancestor (k1 :: p2) q sub v w (by simp) hq hres2 hw
              constructor
              · have hps := ih.1
                simp only [List.cons_append] at hps ⊢
                simp [setPath, hlk, hps, insertF_lookup_self d k (.vdict sub) hlk]
              · have hgn := ih.2
                simp only [List.cons_append] at hgn ⊢
                rw [getVal_cons_some d k _ _ hlk]
                exact hgn
          | vstr s => simp [getVal, hlk] at hres
          | vnum q0 => simp [getVal, hlk] at hres
          | vbool b => simp [getVal, hlk] at hres
          | varr l => simp [getVal, hlk] at hres

/-- Claim C3 counterexample: the claim asserts that every dotted key
resolving in the defaults still resolves after a merge.  With the defaults
`{"a": {"b": 1}}` and the override `{"a": 2}` the dotted key `a.b` resolves
before the merge but not after it: `merge_dict` replaces the sub-mapping
bound to `a` by the scalar `2`, so resolution of `a.b` hits a non-dict. -/
theorem C3_counterexample :
    (getVal (.vdict cexStore) (configKeys "a.b")).isSome = true ∧
    ¬ ((getVal (.vdict (mergeDict cexStore cexOverride)) (configKeys "a.b")).isSome = true) := by
  exact ⟨by decide, by decide⟩

/-- Claim C3 (amended): merging an override onto the defaults never removes a
top-level key — every single-segment dotted key resolving in the defaults
still resolves after the merge (to the merged value); dotted keys of two or
more segments may stop resolving when the override replaces one of their
ancestor mappings with a non-mapping value. -/
theorem C3_merge_preserves_toplevel_keys (base update : Fields) (k : String)
    (h : (getVal (.vdict base) [k]).isSome = true) :
    (getVal (.vdict (mergeDict base update)) [k]).isSome = true := by
  rw [getVal_single] at h ⊢
  exact lookupF_mergeDict_isSome update base k h

/-- Witness for `C3_merge_preserves_toplevel_keys` at the concrete defaults
`{"a": {"b": 1}}`, override `{"a": 2}` and key `a`. -/
theorem C3_merge_preserves_toplevel_keys_witness :
    (getVal (.vdict (mergeDict cexStore cexOverride)) ["a"]).isSome = true :=
  C3_merge_preserves_toplevel_keys cexStore cexOverride "a" (by decide)

/-- Claim C4 counterexample: the claim asserts that after `set(k, v)` the
call `get(k)` returns `v` for every dotted key.  On the store `{"a": 1}`
(state after `set('a', 1)`), `set('a.b', 2)` raises `TypeError` (second
component `false`) and leaves the store unchanged, so `get('a.b')` does not
return `2` (it resolves to nothing and would yield the caller's default). -/
theorem C4_counterexample :
    (setPath scalarStore (configKeys "a.b") (.vnum 2)).2 = false ∧
    ¬ (getVal (.vdict (setPath scalarStore (configKeys "a.b") (.vnum 2)).1)
        (configKeys "a.b") = some (.vnum 2)) := by
  refine ⟨by decide, ?_⟩
  intro hcontra
  have hn : getVal (.vdict (setPath scalarStore (configKeys "a.b") (.vnum 2)).1)
      (configKeys "a.b") = none := rfl
  rw [hn] at hcontra
  exact Option.noConfusion hcontra

/-- Claim C4 (amended): for every dotted key of any depth and every value,
provided `Config.set` completes without raising `TypeError` (which it always
does when no proper dot-prefix of the key is bound to a non-mapping value —
in particular for keys none of whose prefixes previously existed),
`Config.get` on the same key returns exactly the value just set. -/
theorem C4_set_get_roundtrip (d : Fields) (key : String) (v : Value)
    (h : (configSet d key v).2 = true) :
    getVal (.vdict (configSet d key v).1) (configKeys key) = some v :=
  setPath_get_roundtrip (configKeys key) d v h

/-- Witness for `C4_set_get_roundtrip`: setting the fresh three-segment key
`x.y.z` on the empty store (no prefix of it exists) and reading it back. -/
theorem C4_set_get_roundtrip_witness :
    getVal (.vdict (configSet Fields.nil "x.y.z" (.vstr "v")).1) (configKeys "x.y.z")
      = some (.vstr "v") :=
  C4_set_get_roundtrip Fields.nil "x.y.z" (.vstr "v") (by decide)

/-- Claim C9: when some proper dot-prefix of the key is currently bound to a
non-mapping value, `Config.set` raises `TypeError` (second component
`false`) with the store left exactly unchanged, while `Config.get` on the
same key returns the caller-supplied default instead of raising. -/
theorem C9_set_nondict_ancestor (d : Fields) (ks : List String) (v dft : Value)
    (h : ∃ p q w, ks = p ++ q ∧ p ≠ [] ∧ q ≠ [] ∧
      getVal (.vdict d) p = some w ∧ w.isDict = false) :
    setPath d ks v = (d, false) ∧ (getVal (.vdict d) ks).getD dft = dft := by
  obtain ⟨p, q, w, rfl, hp, hq, hres, hw⟩ := h
  have hmain := setPath_scalar_ancestor p q d v w hp hq hres hw
  exact ⟨hmain.1, by rw [hmain.2]; rfl⟩

/-- Witness for `C9_set_nondict_ancestor`: on `{"a": 1}` the call
`set('a.b', 2)` raises with the store unchanged, and `get('a.b', "dflt")`
returns the default. -/
theorem C9_set_nondict_ancestor_witness :
    setPath scalarStore (configKeys "a.b") (.vnum 2) = (scalarStore, false) ∧
    (getVal (.vdict scalarStore) (configKeys "a.b")).getD (.vstr "dflt")
      = .vstr "dflt" :=
  C9_set_nondict_ancestor scalarStore (configKeys "a.b") (.vnum 2) (.vstr "dflt")
    ⟨["a"], ["b"], .vnum 1, rfl, by decide, by decide, rfl, rfl⟩

/-- Claim C1: `_process_analysis_results` reports overall success exactly
when the process return code is 0; with return code 0 a missing
`results.csv` or a missing requested reconstructed image only adds a warning
message, and every non-zero return code (including the -1 sentinel) yields
failure. -/
theorem C1_success_iff_returncode_zero (rc : Int) (out err : String)
    (o : OutputDir) (cr : Bool) :
    (process_analysis_results rc out err o cr).1 = decide (rc = 0) ∧
    (rc = 0 → o.resultsLines = none →
      "⚠ Warning: Expected results.csv file not found"
        ∈ (process_analysis_results rc out err o cr).2) ∧
    (rc = 0 → cr = true → o.reconstructed = false →
      "⚠ Warning: Expected reconstructed_image.tif file not found"
        ∈ (process_analysis_results rc out err o cr).2) := by
  refine ⟨?_, ?_, ?_⟩
  · by_cases h0 : rc = 0
    · simp [process_analysis_results, h0]
    · by_cases h1 : rc = -1 <;> simp [process_analysis_results, h0, h1]
  · intro h0 hres
    subst h0
    simp [process_analysis_results, verify_output_files, hres]
  · intro h0 hcr hrec
    subst h0
    subst hcr
    cases hres : o.resultsLines <;>
      simp [process_analysis_results, verify_output_files, hres, hrec]

/-- Witness for `C1_success_iff_returncode_zero`: return code 0 with an
empty output directory still reports success, with both artifact warnings
present. -/
theorem C1_success_iff_returncode_zero_witness :
    (process_analysis_results 0 "" "" ⟨none, false, false⟩ true).1 = true ∧
    "⚠ Warning: Expected results.csv file not found"
      ∈ (process_analysis_results 0 "" "" ⟨none, false, false⟩ true).2 ∧
    "⚠ Warning: Expected reconstructed_image.tif file not found"
      ∈ (process_analysis_results 0 "" "" ⟨none, false, false⟩ true).2 :=
  ⟨(C1_success_iff_returncode_zero 0 "" "" ⟨none, false, false⟩ true).1,
   (C1_success_iff_returncode_zero 0 "" "" ⟨none, false, false⟩ true).2.1 rfl rfl,
   (C1_success_iff_returncode_zero 0 "" "" ⟨none, false, false⟩ true).2.2 rfl rfl rfl⟩

/-- Claim C2 counterexample: the claim asserts validation succeeds only on
the two exact four-byte headers.  A `.tif` file beginning `49 49 00 2A`
(the mixed header `II` followed by `00 2A`) is accepted by
`validate_tiff_file`, because the source checks `magic[:2]` and `magic[2:4]`
independently, yet the claimed strict predicate rejects it. -/
theorem C2_counterexample :
    validate_tiff_file [("a.tif", [0x49, 0x49, 0x00, 0x2A])] "a.tif" = true ∧
    ¬ (tiff_claim_strict [("a.tif", [0x49, 0x49, 0x00, 0x2A])] "a.tif" = true) := by
  decide

/-- Claim C2 (amended): `validate_tiff_file` returns true for a file exactly
when the path exists, its extension is `.tif`/`.tiff` case-insensitively,
its first two bytes are `49 49` or `4D 4D`, and its third and fourth bytes
are `2A 00` or `00 2A` — thus also accepting the two mixed headers; any
other header, a correct header with a `.txt` extension, and a nonexistent
path all validate false. -/
theorem C2_validate_tiff_characterization (fs : FS) (p : String) :
    validate_tiff_file fs p = tiff_loose_spec fs p := by
  unfold validate_tiff_file tiff_loose_spec
  cases hf : fsLookup fs p with
  | none => rfl
  | some bytes =>
      by_cases h1 : pathExtLower p = ".tif".toList <;>
        by_cases h2 : pathExtLower p = ".tiff".toList <;>
          simp [h1, h2]

/-- Claim C7: a child process that exceeds the timeout yields return code -1
with a non-empty stderr message, and a launch failure yields the same -1
code, so the two cases cannot be told apart by return code alone. -/
theorem C7_timeout_sentinel (cmd : List String) (t : Nat) :
    (run_command cmd t .timedOut).1 = -1 ∧
    (run_command cmd t .timedOut).2.2 ≠ "" ∧
    (∀ msg, (run_command cmd t (.launchError msg)).1 = -1) ∧
    (∀ msg, (run_command cmd t (.launchError msg)).1
      = (run_command cmd t .timedOut).1) := by
  refine ⟨rfl, ?_, fun _ => rfl, fun _ => rfl⟩
  simp [run_command]

/-- Claim C8: plugin discovery returns the download URL and name of the
first asset, in list order, whose name ends in `.jar` and contains
`thunderstorm` case-insensitively, and reports failure (no URL) exactly
when no asset matches. -/
theorem C8_first_matching_asset (assets : List Asset) :
    get_thunderstorm_download_url assets
      = (assets.find? jarMatch).map (fun a => (a.browser_download_url, a.name)) := by
  induction assets with
  | nil => rfl
  | cons a rest ih =>
      by_cases h : jarMatch a = true
      · have hc : (trailsL ".jar".toList a.name.toList
            && hasSub "thunderstorm".toList (a.name.toList.map Char.toLower)) = true := h
        rw [get_thunderstorm_download_url, if_pos hc, List.find?_cons_of_pos _ h]
        rfl
      · have hc : ¬ ((trailsL ".jar".toList a.name.toList
            && hasSub "thunderstorm".toList (a.name.toList.map Char.toLower)) = true) := h
        rw [get_thunderstorm_download_url, if_neg hc,
          List.find?_cons_of_neg _ (by simpa using h), ih]

theorem find_fiji_executable_eq_find? (ex : String → Bool) :
    ∀ paths : List String, find_fiji_executable ex paths = paths.find? ex
  | [] => rfl
  | p :: rest => by
      by_cases h : ex p = true
      · rw [List.find?_cons_of_pos _ h]
        simp [find_fiji_executable, h]
      · rw [List.find?_cons_of_neg _ (by simpa using h)]
        simp [find_fiji_executable, h, find_fiji_executable_eq_find? ex rest]

/-- Claim C5: the constructor resolves the executable from the explicit
override when given, otherwise takes the first existing path of the
configured list in its fixed order (`List.find?`); it raises the not-found
error (`none`) exactly when the resolved path does not exist — immediately
for an explicit nonexistent override, before the analysis call (which alone
generates macros) can run, and when no override is given and no listed path
exists.  Paths are taken nonempty, matching every configured path list. -/
theorem C5_executable_resolution (override : Option String) (ex : String → Bool)
    (paths : List String)
    (hov : ∀ p, override = some p → p ≠ "")
    (hps : "" ∉ paths) :
    (∀ p, override = some p →
      resolve_fiji_path override ex paths = if ex p then some p else none) ∧
    (override = none →
      resolve_fiji_path none ex paths = paths.find? ex) ∧
    (override = none →
      (resolve_fiji_path none ex paths = none ↔ ∀ p ∈ paths, ex p = false)) := by
  have hnone : override = none →
      resolve_fiji_path none ex paths = paths.find? ex := by
    intro _
    cases hf : paths.find? ex with
    | none =>
        simp [resolve_fiji_path, find_fiji_executable_eq_find?, hf]
    | some p =>
        have hexp : ex p = true := List.find?_some hf
        have hmem : p ∈ paths := List.mem_of_find?_eq_some hf
        have hpne : p ≠ "" := fun hpe => hps (hpe ▸ hmem)
        simp [resolve_fiji_path, find_fiji_executable_eq_find?, hf, hexp, hpne]
  refine ⟨?_, hnone, ?_⟩
  · intro p hp
    subst hp
    have hpne : p ≠ "" := hov p rfl
    by_cases hexp : ex p = true <;>
      simp [resolve_fiji_path, hpne, hexp]
  · intro hov0
    rw [hnone hov0, List.find?_eq_none]
    constructor
    · intro hall p hmem
      simpa using hall p hmem
    · intro hall p hmem
      simp [hall p hmem]

/-- Witness for `C5_executable_resolution`: on the configured Linux path
list with only the `/opt` location existing, construction without an
override resolves to the first existing path; and an explicit nonexistent
override is rejected. -/
theorem C5_executable_resolution_witness :
    resolve_fiji_path none (fun p => p = "/opt/Fiji.app/ImageJ-linux64")
        (fiji_install_paths_linux "/home/user")
      = (fiji_install_paths_linux "/home/user").find?
          (fun p => p = "/opt/Fiji.app/ImageJ-linux64") ∧
    resolve_fiji_path (some "/nonexistent/path")
        (fun p => p = "/opt/Fiji.app/ImageJ-linux64")
        (fiji_install_paths_linux "/home/user")
      = (if (fun p => p = "/opt/Fiji.app/ImageJ-linux64") "/nonexistent/path"
          then some "/nonexistent/path" else none) :=
  ⟨(C5_executable_resolution none (fun p => p = "/opt/Fiji.app/ImageJ-linux64")
      (fiji_install_paths_linux "/home/user")
      (fun _ hp => Option.noConfusion hp) (by decide)).2.1 rfl,
   (C5_executable_resolution (some "/nonexistent/path")
      (fun p => p = "/opt/Fiji.app/ImageJ-linux64")
      (fiji_install_paths_linux "/home/user")
      (fun p hp => by
        cases hp
        decide) (by decide)).1 "/nonexistent/path" rfl⟩

/-- Claim C6: `run_thunderstorm_analysis` raises the input-not-found error
exactly when the input path does not exist, and in that case no effect at
all (no macro write, no process launch) has happened; an existing input
always gets past validation — a failed TIFF check only inserts a warning
effect and the call still proceeds to a normal boolean result (given the
macro write succeeds). -/
theorem C6_input_validation (w : AnalysisWorld) (fijiPath input outputDir : String)
    (t : Nat) (defaults kwargs : Fields) :
    ((run_thunderstorm_analysis w fijiPath input outputDir t defaults kwargs).1
        = .error (.inputNotFound input) ↔ fsLookup w.fs input = none) ∧
    (fsLookup w.fs input = none →
      (run_thunderstorm_analysis w fijiPath input outputDir t defaults kwargs).2 = []) ∧
    ((fsLookup w.fs input).isSome = true → w.writeOk = true →
      ∃ b, (run_thunderstorm_analysis w fijiPath input outputDir t defaults kwargs).1
        = .ok b) ∧
    (Effect.warnedInvalidTiff input
        ∈ (run_thunderstorm_analysis w fijiPath input outputDir t defaults kwargs).2 ↔
      ((fsLookup w.fs input).isSome = true ∧ validate_tiff_file w.fs input = false)) := by
  cases hfl : fsLookup w.fs input with
  | none =>
      refine ⟨by simp [run_thunderstorm_analysis, hfl], ?_, ?_, ?_⟩ <;>
        simp [run_thunderstorm_analysis, hfl]
  | some bytes =>
      by_cases hwk : w.writeOk = true <;>
        by_cases hv : validate_tiff_file w.fs input = true <;>
          refine ⟨?_, ?_, ?_, ?_⟩ <;>
            simp [run_thunderstorm_analysis, hfl, hwk, hv]

/-- Witness for `C6_input_validation`: with no input file the call performs
no effects; with a valid input file, a working macro write and a clean
process exit the call returns a boolean. -/
theorem C6_input_validation_witness :
    (run_thunderstorm_analysis worldNoInput "fiji" "in.tif" "out" 300
        Fields.nil Fields.nil).2 = [] ∧
    (∃ b, (run_thunderstorm_analysis worldGoodInput "fiji" "in.tif" "out" 300
        Fields.nil Fields.nil).1 = .ok b) :=
  ⟨(C6_input_validation worldNoInput "fiji" "in.tif" "out" 300
      Fields.nil Fields.nil).2.1 rfl,
   (C6_input_validation worldGoodInput "fiji" "in.tif" "out" 300
      Fields.nil Fields.nil).2.2.1 rfl rfl⟩

theorem heapGet_append_lt : ∀ (h : Heap) (x : HFields) (a : Nat),
    a < h.length → heapGet (h ++ [x]) a = heapGet h a
  | [], _, a, ha => absurd ha (by simp)
  | _ :: _, _, 0, _ => rfl
  | _ :: t, x, a + 1, ha => heapGet_append_lt t x a (by simpa using ha)

theorem heapGet_append_len : ∀ (h : Heap) (x : HFields),
    heapGet (h ++ [x]) h.length = x
  | [], _ => rfl
  | _ :: t, x => heapGet_append_len t x

theorem heapGet_set_ne : ∀ (h : Heap) (a b : Nat) (y : HFields),
    a ≠ b → heapGet (heapSet h a y) b = heapGet h b
  | [], _, _, _, _ => rfl
  | _ :: _, 0, 0, _, hab => absurd rfl hab
  | _ :: _, 0, _ + 1, _, _ => rfl
  | _ :: _, _ + 1, 0, _, _ => rfl
  | _ :: t, a + 1, b + 1, y, hab =>
      heapGet_set_ne t a b y (fun hcontra => hab (by rw [hcontra]))

theorem heapGet_set_self : ∀ (h : Heap) (a : Nat) (y : HFields),
    a < h.length → heapGet (heapSet h a y) a = y
  | [], _, _, ha => absurd ha (by simp)
  | _ :: _, 0, _, _ => rfl
  | _ :: t, a + 1, y, ha => heapGet_set_self t a y (by simpa using ha)

theorem heapGet_frame (h : Heap) (x y : HFields) (a : Nat) (ha : a < h.length) :
    heapGet (heapSet (h ++ [x]) h.length y) a = heapGet h a := by
  rw [heapGet_set_ne _ _ _ _ (Nat.ne_of_gt ha)]
  exact heapGet_append_lt h x a ha

theorem heapGet_mem : ∀ (h : Heap) (a : Nat), a < h.length → heapGet h a ∈ h
  | [], _, ha => absurd ha (by simp)
  | f :: t, 0, _ => List.mem_cons_self f t
  | f :: t, a + 1, ha =>
      List.mem_cons_of_mem f (heapGet_mem t a (by simpa using ha))

theorem hLookup_mem : ∀ (fl : HFields) (k : String) (u : HVal),
    hLookup fl k = some u → ∃ kv ∈ fl, Prod.snd kv = u
  | [], _, _, h => by simp [hLookup] at h
  | (k0, v0) :: t, k, u, h => by
      by_cases h0 : k0 = k
      · refine ⟨(k0, v0), List.mem_cons_self _ _, ?_⟩
        simpa [hLookup, h0] using h
      · have h2 : hLookup t k = some u := by simpa [hLookup, h0] using h
        obtain ⟨kv, hmem, hkv⟩ := hLookup_mem t k u h2
        exact ⟨kv, List.mem_cons_of_mem _ hmem, hkv⟩

theorem hvalBound_of_lookup (h : Heap) (a : Nat) (k : String) (u : HVal)
    (hwf : heapWF h) (ha : a < h.length)
    (hlk : hLookup (heapGet h a) k = some u) :
    hvalBound u h.length = true := by
  obtain ⟨kv, hmem, hkv⟩ := hLookup_mem (heapGet h a) k u hlk
  have := hwf (heapGet h a) (heapGet_mem h a ha) kv hmem
  rwa [hkv] at this

theorem hResolve_agree : ∀ (ks : List String) (h h2 : Heap) (v : HVal),
    heapWF h → (∀ a, a < h.length → heapGet h2 a = heapGet h a) →
    hvalBound v h.length = true →
    hResolve h2 v ks = hResolve h v ks
  | [], _, _, _, _, _, _ => by simp [hResolve]
  | k :: rest, h, h2, v, hwf, hag, hb => by
      cases v with
      | hstr s => rfl
      | hnum q => rfl
      | hbool b => rfl
      | href a =>
          have ha : a < h.length := by simpa [hvalBound] using hb
          show (match hLookup (heapGet h2 a) k with
                | some u => hResolve h2 u rest
                | none => none)
              = (match hLookup (heapGet h a) k with
                | some u => hResolve h u rest
                | none => none)
          rw [hag a ha]
          cases hlk : hLookup (heapGet h a) k with
          | none => rfl
          | some u =>
              exact hResolve_agree rest h h2 u hwf hag
                (hvalBound_of_lookup h a k u hwf ha hlk)

theorem hResolve_bound : ∀ (ks : List String) (h : Heap) (v u : HVal),
    heapWF h → hvalBound v h.length = true →
    hResolve h v ks = some u → hvalBound u h.length = true
  | [], _, v, u, _, hb, hres => by
      have hv : v = u := by simpa [hResolve] using hres
      exact hv ▸ hb
  | k :: rest, h, v, u, hwf, hb, hres => by
      cases v with
      | hstr s => exact absurd hres (by simp [hResolve])
      | hnum q => exact absurd hres (by simp [hResolve])
      | hbool b => exact absurd hres (by simp [hResolve])
      | href a =>
          have ha : a < h.length := by simpa [hvalBound] using hb
          cases hlk : hLookup (heapGet h a) k with
          | none =>
              refine absurd hres ?_
              show ¬ ((match hLookup (heapGet h a) k with
                      | some w => hResolve h w rest
                      | none => none) = some u)
              rw [hlk]
              exact fun hcontra => Option.noConfusion hcontra
          | some w =>
              have hres2 : hResolve h w rest = some u := by
                have hstep : hResolve h (.href a) (k :: rest)
                    = hResolve h w rest := by
                  show (match hLookup (heapGet h a) k with
                        | some w2 => hResolve h w2 rest
                        | none => none) = hResolve h w rest
                  rw [hlk]
                rwa [hstep] at hres
              exact hResolve_bound rest h w u hwf
                (hvalBound_of_lookup h a k w hwf ha hlk) hres2

theorem param_phase_eq (h : Heap) (cfg rd : Nat) (kwargs : HFields)
    (hres : hResolve h (.href cfg) defaultsPath = some (.href rd)) :
    param_phase h cfg kwargs
      = some (heapSet (h ++ [heapGet h rd]) h.length
          (hUpdate (heapGet h rd) kwargs), h.length) := by
  simp [param_phase, hres, heapGet_append_len]

/-- Claim C10: per-call keyword overrides never mutate the stored default
parameters.  The analysis call copies the defaults dict and updates only the
copy, so after the parameter phase the stored defaults object is unchanged,
`get_default_parameters` still resolves to the same object with the same
fields, the call itself operated on defaults-updated-with-overrides, and a
later call without overrides uses exactly the original defaults. -/
theorem C10_overrides_do_not_mutate_defaults (h : Heap) (cfg rd pAddr : Nat)
    (h2 : Heap) (kwargs : HFields)
    (hwf : heapWF h) (hcfg : cfg < h.length)
    (hres : hResolve h (.href cfg) defaultsPath = some (.href rd))
    (hpp : param_phase h cfg kwargs = some (h2, pAddr)) :
    heapGet h2 rd = heapGet h rd ∧
    hResolve h2 (.href cfg) defaultsPath = some (.href rd) ∧
    heapGet h2 pAddr = hUpdate (heapGet h rd) kwargs ∧
    (∀ h3 p2, param_phase h2 cfg [] = some (h3, p2) →
      heapGet h3 p2 = heapGet h rd) := by
  have hcb : hvalBound (.href cfg) h.length = true := by
    simp [hvalBound, hcfg]
  have hrdb : hvalBound (.href rd) h.length = true :=
    hResolve_bound defaultsPath h (.href cfg) (.href rd) hwf hcb hres
  have hrd : rd < h.length := by simpa [hvalBound] using hrdb
  rw [param_phase_eq h cfg rd kwargs hres] at hpp
  obtain ⟨rfl, rfl⟩ : h2 = heapSet (h ++ [heapGet h rd]) h.length
      (hUpdate (heapGet h rd) kwargs) ∧ pAddr = h.length := by
    cases hpp
    exact ⟨rfl, rfl⟩
  have hframe : ∀ a, a < h.length →
      heapGet (heapSet (h ++ [heapGet h rd]) h.length
        (hUpdate (heapGet h rd) kwargs)) a = heapGet h a :=
    fun a ha => heapGet_frame h _ _ a ha
  have hrd2 : heapGet (heapSet (h ++ [heapGet h rd]) h.length
      (hUpdate (heapGet h rd) kwargs)) rd = heapGet h rd := hframe rd hrd
  have hres2 : hResolve (heapSet (h ++ [heapGet h rd]) h.length
      (hUpdate (heapGet h rd) kwargs)) (.href cfg) defaultsPath
      = some (.href rd) := by
    rw [hResolve_agree defaultsPath h _ (.href cfg) hwf hframe hcb]
    exact hres
  have hpobj : heapGet (heapSet (h ++ [heapGet h rd]) h.length
      (hUpdate (heapGet h rd) kwargs)) h.length
      = hUpdate (heapGet h rd) kwargs :=
    heapGet_set_self _ _ _ (by simp)
  refine ⟨hrd2, hres2, hpobj, ?_⟩
  intro h3 p2 hpp2
  rw [param_phase_eq _ cfg rd [] hres2] at hpp2
  obtain ⟨rfl, rfl⟩ : h3 = heapSet
      ((heapSet (h ++ [heapGet h rd]) h.length (hUpdate (heapGet h rd) kwargs))
        ++ [heapGet (heapSet (h ++ [heapGet h rd]) h.length
              (hUpdate (heapGet h rd) kwargs)) rd])
      (heapSet (h ++ [heapGet h rd]) h.length
        (hUpdate (heapGet h rd) kwargs)).length
      (hUpdate (heapGet (heapSet (h ++ [heapGet h rd]) h.length
        (hUpdate (heapGet h rd) kwargs)) rd) []) ∧
      p2 = (heapSet (h ++ [heapGet h rd]) h.length
        (hUpdate (heapGet h rd) kwargs)).length := by
    cases hpp2
    exact ⟨rfl, rfl⟩
  rw [heapGet_set_self _ _ _ (by simp), hrd2]
  simp [hUpdate]

/-- Witness for `C10_overrides_do_not_mutate_defaults` on the concrete
three-object heap with the override `{"gain": 300}`. -/
theorem C10_overrides_do_not_mutate_defaults_witness :
    heapGet witPhase.1 2 = heapGet witHeap 2 ∧
    hResolve witPhase.1 (.href 0) defaultsPath = some (.href 2) ∧
    heapGet witPhase.1 witPhase.2 = hUpdate (heapGet witHeap 2) witKwargs :=
  ⟨(C10_overrides_do_not_mutate_defaults witHeap 0 2 witPhase.2 witPhase.1
      witKwargs (by decide) (by decide) rfl rfl).1,
   (C10_overrides_do_not_mutate_defaults witHeap 0 2 witPhase.2 witPhase.1
      witKwargs (by decide) (by decide) rfl rfl).2.1,
   (C10_overrides_do_not_mutate_defaults witHeap 0 2 witPhase.2 witPhase.1
      witKwargs (by decide) (by decide) rfl rfl).2.2.1⟩

end Thunderstorm

